import Mathlib

/-!
# Verification of the media-service upload/download bridge

Shallow embedding of the khdiyz/media-service repository:

* `goExt`, `generateKey`, `minioUpload`, `minioDownload`, `minioGetURL`
  model `internal/storage` (MinIO adapter, `MinioStorage` methods).
* `serviceUploadFile`, `serviceUploadStream`, `serviceDownloadFile`,
  `serviceGetFileURL` model `internal/service/media_service.go`.
* `handlerUpload`, `handlerUploadStream`, `handlerDownload`,
  `handlerDownloadStream`, `handlerGetURL`, `handlerGetFileInfo` model
  `internal/handler/media_handler.go`.

Bytes are modelled as `Nat`, byte buffers as `List Nat`.  The `io.Pipe`
between the gRPC receive loop and the concurrent storage write delivers
bytes in order with clean end-of-stream on `writer.Close()`, so in the
embedding the storage write receives exactly the ordered concatenation of
the bytes written to the pipe.  Wall-clock values (the `UploadedAt`
timestamp, the `YYYY/MM/DD` date) and the random UUID are external inputs
and are passed as explicit parameters; the timestamp field of responses is
not modelled.  Go `int64` counters are modelled without wrap-around, which
is faithful below `2^63` bytes.
-/

/-- gRPC status codes used by the handlers. -/
inductive Code where
  | invalidArgument
  | internal
  | notFound
  deriving Repr, DecidableEq

/-- The metadata frame of an `UploadStreamRequest`
(`FileMetadata`: file_name, file_size, content_type). -/
structure UploadMetadata where
  fileName : String
  fileSize : Int
  contentType : String
  deriving Repr, DecidableEq

/-- One inbound frame of the client-streaming `UploadStream` call: the
protobuf oneof carries either metadata or a chunk of bytes. -/
inductive UploadFrame where
  | metadata (m : UploadMetadata)
  | chunk (data : List Nat)
  deriving Repr, DecidableEq

/-- One outbound frame of the server-streaming `DownloadStream` call
(`DownloadStreamResponse`: oneof metadata | chunk). -/
inductive DownFrame where
  | metadata (fileName : String)
  | chunk (data : List Nat)
  deriving Repr, DecidableEq

/-- The `UploadResponse` message (file_path, url, file_size); the
`uploaded_at` wall-clock field is not modelled. -/
structure UploadResponse where
  filePath : String
  url : String
  fileSize : Nat
  deriving Repr, DecidableEq

/-- The `DownloadResponse` message. -/
structure DownloadResponse where
  fileName : String
  content : List Nat
  contentType : String
  fileSize : Nat
  deriving Repr, DecidableEq

/-- The `GetFileInfoResponse` message. -/
structure GetFileInfoResponse where
  filePath : String
  url : String
  deriving Repr, DecidableEq

/-- The `GetURLResponse` message. -/
structure GetURLResponse where
  url : String
  deriving Repr, DecidableEq

/-- Outcome of a unary handler: a gRPC error status or a response. -/
inductive Result (α : Type) where
  | err (c : Code)
  | ok (resp : α)
  deriving Repr, DecidableEq

/-- One `PutObject` call observed by the MinIO backend: the object key,
the advisory size hint, the bytes actually read from the supplied reader,
and the content type. -/
structure StorageCall where
  key : String
  sizeHint : Int
  content : List Nat
  contentType : String
  deriving Repr, DecidableEq

/-- State of the `MinioStorage` adapter: bucket name and public base URL
from configuration, the remote object store contents (`none` for an
absent object, standing for any failure of `GetObject`/`Stat`), and
whether `PutObject` succeeds. -/
structure MinioState where
  bucketName : String
  fileURL : String
  objects : String → Option (List Nat)
  putOk : Bool

/-- Go's `filepath.Ext`, scanning the reversed character list: walk
backwards from the end of the path; stop at a path separator with no
extension; on the first `.` return the suffix from that dot.  `acc` holds
the characters already passed, in forward order. -/
def goExtAux (acc : List Char) : List Char → List Char
  | [] => []
  | c :: revRest =>
    if c = '/' then []
    else if c = '.' then c :: acc
    else goExtAux (c :: acc) revRest

/-- `filepath.Ext(fileName)` as used by `MinioStorage.Upload`. -/
def goExt (fileName : String) : String :=
  ⟨goExtAux [] fileName.data.reverse⟩

/-- The storage-key policy of `MinioStorage.Upload`:
`fmt.Sprintf("%s/%s%s", timestamp, uniqueID, ext)` where `timestamp` is
`time.Now().Format("2006/01/02")` and `uniqueID` is `uuid.NewString()`,
both passed here as explicit inputs. -/
def generateKey (date uuid fileName : String) : String :=
  date ++ "/" ++ uuid ++ goExt fileName

/-- The extension policy as worded by the specification: the substring of
the filename from its last `.` to the end, or empty if the filename has
no `.`.  Kept separate from `goExt` so the two can be compared. -/
def claimExtAux (acc : List Char) : List Char → List Char
  | [] => []
  | c :: revRest =>
    if c = '.' then c :: acc
    else claimExtAux (c :: acc) revRest

/-- Spec-worded extension extraction (last `.` to end, whatever the
filename contains). -/
def claimExt (fileName : String) : String :=
  ⟨claimExtAux [] fileName.data.reverse⟩

/-- `MinioStorage.Upload`: generate the key, call `PutObject` with the
reader's full contents, and return the key on success.  Returns the
observed `PutObject` call together with `some key` (success) or `none`
(storage error). -/
def minioUpload (st : MinioState) (date uuid : String) (fileName : String)
    (fileSize : Int) (content : List Nat) (contentType : String) :
    StorageCall × Option String :=
  let filePath := generateKey date uuid fileName
  (⟨filePath, fileSize, content, contentType⟩,
   if st.putOk then some filePath else none)

/-- `MinioStorage.Download`: `GetObject` then `Stat`; any failure
(object absent included) yields an error, otherwise the read handle over
the object's bytes. -/
def minioDownload (st : MinioState) (filePath : String) : Option (List Nat) :=
  st.objects filePath

/-- `MinioStorage.GetURL`: empty string when no base URL is configured,
otherwise `fmt.Sprintf("%s/%s/%s", m.fileURL, m.bucketName, filePath)`. -/
def minioGetURL (st : MinioState) (filePath : String) : String :=
  if st.fileURL = "" then ""
  else st.fileURL ++ "/" ++ st.bucketName ++ "/" ++ filePath

/-- `MediaService.UploadFile`: wrap the buffer in a reader with
`fileSize = len(content)` and delegate to `storage.Upload`. -/
def serviceUploadFile (st : MinioState) (date uuid : String)
    (fileName : String) (content : List Nat) (contentType : String) :
    StorageCall × Option String :=
  minioUpload st date uuid fileName (content.length : Int) content contentType

/-- `MediaService.UploadStream`: pass the reader straight to
`storage.Upload` with the caller-supplied advisory size. -/
def serviceUploadStream (st : MinioState) (date uuid : String)
    (fileName : String) (fileSize : Int) (content : List Nat)
    (contentType : String) : StorageCall × Option String :=
  minioUpload st date uuid fileName fileSize content contentType

/-- `MediaService.DownloadFile`: pass-through to `storage.Download`. -/
def serviceDownloadFile (st : MinioState) (filePath : String) :
    Option (List Nat) :=
  minioDownload st filePath

/-- `MediaService.GetFileURL`: pass-through to `storage.GetURL`. -/
def serviceGetFileURL (st : MinioState) (filePath : String) : String :=
  minioGetURL st filePath

/-- `MediaHandler.Upload`: upload the whole body; on storage error return
`Internal`; on success respond with the path, its URL, and
`int64(len(req.Content))`. -/
def handlerUpload (st : MinioState) (date uuid : String)
    (fileName : String) (content : List Nat) (contentType : String) :
    List StorageCall × Result UploadResponse :=
  let r := serviceUploadFile st date uuid fileName content contentType
  match r.2 with
  | none => ([r.1], .err .internal)
  | some filePath =>
      ([r.1], .ok ⟨filePath, serviceGetFileURL st filePath, content.length⟩)

/-- The receive loop of `MediaHandler.UploadStream` after the metadata
frame: for each frame, a `nil` chunk (any non-chunk frame) is skipped;
a chunk's bytes go to the pipe and `totalBytes` grows by the number of
bytes written.  Returns the bytes delivered to the pipe, in order, and
the final `totalBytes`. -/
def pumpChunks : List UploadFrame → List Nat × Nat
  | [] => ([], 0)
  | .metadata _ :: rest => pumpChunks rest
  | .chunk d :: rest =>
      let r := pumpChunks rest
      (d ++ r.1, d.length + r.2)

/-- `MediaHandler.UploadStream` over the whole inbound frame sequence:
if the stream ends before any frame or the first frame is not metadata,
fail with `InvalidArgument` before the storage goroutine is started;
otherwise run the concurrent `service.UploadStream` on the pipe fed by
the receive loop, and answer with the resulting path, URL and the
accumulated byte counter.  Returns the list of `PutObject` calls made
and the call's outcome. -/
def handlerUploadStream (st : MinioState) (date uuid : String) :
    List UploadFrame → List StorageCall × Result UploadResponse
  | [] => ([], .err .invalidArgument)
  | .chunk _ :: _ => ([], .err .invalidArgument)
  | .metadata m :: rest =>
      let piped := pumpChunks rest
      let r := serviceUploadStream st date uuid m.fileName m.fileSize
        piped.1 m.contentType
      match r.2 with
      | none => ([r.1], .err .internal)
      | some filePath =>
          ([r.1], .ok ⟨filePath, serviceGetFileURL st filePath, piped.2⟩)

/-- `MediaHandler.Download`: missing object (or any storage error) is
`NotFound`; otherwise read everything and answer with the path echoed as
name, the bytes, a generic content type, and the byte length. -/
def handlerDownload (st : MinioState) (filePath : String) :
    Result DownloadResponse :=
  match serviceDownloadFile st filePath with
  | none => .err .notFound
  | some content =>
      .ok ⟨filePath, content, "application/octet-stream", content.length⟩

/-- The fixed read-buffer size of `DownloadStream`: 32 KiB. -/
def chunkSize : Nat := 32 * 1024

/-- The send loop of `MediaHandler.DownloadStream`: read up to
`chunkSize` bytes at a time from the storage handle, emitting one chunk
frame per non-empty read, until end-of-stream; no trailing empty frame. -/
def readLoop (content : List Nat) : List DownFrame :=
  if h : content = [] then []
  else
    .chunk (content.take chunkSize) :: readLoop (content.drop chunkSize)
termination_by content.length
decreasing_by
  simp only [List.length_drop]
  have hc : chunkSize = 32768 := rfl
  have : 0 < content.length := List.length_pos.mpr h
  omega

/-- `MediaHandler.DownloadStream`: on storage error fail with `NotFound`
having sent nothing; otherwise send one metadata frame echoing the
requested path, then the chunk frames.  Returns the frames actually sent
and the error status, if any. -/
def handlerDownloadStream (st : MinioState) (filePath : String) :
    List DownFrame × Option Code :=
  match serviceDownloadFile st filePath with
  | none => ([], some .notFound)
  | some content => (.metadata filePath :: readLoop content, none)

/-- `MediaHandler.GetURL`: pure pass-through to the URL derivation. -/
def handlerGetURL (st : MinioState) (filePath : String) : GetURLResponse :=
  ⟨serviceGetFileURL st filePath⟩

/-- `MediaHandler.GetFileInfo`: echoes the path and derives the URL; no
storage access. -/
def handlerGetFileInfo (st : MinioState) (filePath : String) :
    GetFileInfoResponse :=
  ⟨filePath, serviceGetFileURL st filePath⟩

/-! ## Helper lemmas on the upload receive loop -/

/-- Feeding the pipe a pure chunk sequence delivers the concatenation of
the payloads, and the byte counter ends at its total length. -/
theorem pumpChunks_map_chunk (cs : List (List Nat)) :
    pumpChunks (cs.map .chunk) = (cs.flatten, cs.flatten.length) := by
  induction cs with
  | nil => rfl
  | cons c cs ih =>
      simp [pumpChunks, ih, List.flatten_cons]

/-- A non-chunk frame anywhere after the metadata frame is skipped by the
receive loop: it contributes no bytes and leaves the counter unchanged. -/
theorem pumpChunks_skip_metadata (m : UploadMetadata)
    (pre post : List UploadFrame) :
    pumpChunks (pre ++ .metadata m :: post) = pumpChunks (pre ++ post) := by
  induction pre with
  | nil => simp [pumpChunks]
  | cons f pre ih =>
      cases f with
      | metadata m2 => simpa [pumpChunks] using ih
      | chunk d => simp [pumpChunks, ih]

/-! ## C1: streaming upload refines whole-body upload -/

/-- C1: a streaming upload fed one metadata frame and then chunk frames
`c1..cn` makes exactly one storage write whose content is `c1++...++cn`,
the same bytes a whole-body `Upload(m.fileName, c1++...++cn,
m.contentType)` writes; when storage succeeds, the streaming response
carries the generated key and a `fileSize` equal to the total
concatenated length, not the advisory `m.fileSize`. -/
theorem uploadStream_refines_upload (st : MinioState) (date uuid : String)
    (m : UploadMetadata) (cs : List (List Nat)) :
    (handlerUploadStream st date uuid
        (.metadata m :: cs.map .chunk)).1.map StorageCall.content
      = [cs.flatten] ∧
    (handlerUploadStream st date uuid
        (.metadata m :: cs.map .chunk)).1.map StorageCall.content
      = (handlerUpload st date uuid m.fileName cs.flatten
          m.contentType).1.map StorageCall.content ∧
    (st.putOk = true →
      (handlerUploadStream st date uuid (.metadata m :: cs.map .chunk)).2
        = .ok ⟨generateKey date uuid m.fileName,
               serviceGetFileURL st (generateKey date uuid m.fileName),
               cs.flatten.length⟩) := by
  have hp := pumpChunks_map_chunk cs
  refine ⟨?_, ?_, ?_⟩
  · cases hpo : st.putOk <;>
      simp [handlerUploadStream, serviceUploadStream, minioUpload, hp, hpo]
  · cases hpo : st.putOk <;>
      simp [handlerUploadStream, handlerUpload, serviceUploadStream,
        serviceUploadFile, minioUpload, hp, hpo]
  · intro hpo
    simp [handlerUploadStream, serviceUploadStream, minioUpload, hp, hpo]

/-- C1 witness: concrete run with chunks `[2, 3]` and `[5]`. -/
theorem uploadStream_refines_upload_witness :
    (⟨"media", "http://cdn", fun _ => none, true⟩ : MinioState).putOk = true ∧
    (handlerUploadStream ⟨"media", "http://cdn", fun _ => none, true⟩
        "2024/01/01" "id" (.metadata ⟨"a.txt", 5, "text/plain"⟩
          :: [[2, 3], [5]].map .chunk)).2
      = .ok ⟨generateKey "2024/01/01" "id" "a.txt",
             serviceGetFileURL ⟨"media", "http://cdn", fun _ => none, true⟩
               (generateKey "2024/01/01" "id" "a.txt"),
             [[2, 3], [5]].flatten.length⟩ :=
  ⟨rfl, (uploadStream_refines_upload ⟨"media", "http://cdn", fun _ => none, true⟩
    "2024/01/01" "id" ⟨"a.txt", 5, "text/plain"⟩ [[2, 3], [5]]).2.2 rfl⟩

/-! ## C2: first frame not metadata -/

/-- C2: when the inbound stream ends before any frame, or its first frame
is a chunk rather than metadata, `UploadStream` fails with
`InvalidArgument` and the storage `Upload` is never invoked. -/
theorem uploadStream_first_frame_guard (st : MinioState) (date uuid : String)
    (c : List Nat) (rest : List UploadFrame) :
    handlerUploadStream st date uuid [] = ([], .err .invalidArgument) ∧
    handlerUploadStream st date uuid (.chunk c :: rest)
      = ([], .err .invalidArgument) :=
  ⟨rfl, rfl⟩

/-! ## C8: non-chunk frames after the first are skipped -/

/-- C8: a frame after the first that carries no chunk payload (such as a
second metadata frame) is silently skipped: the whole call has exactly
the same storage writes, byte counter and outcome as the call without
that frame. -/
theorem uploadStream_skips_non_chunk (st : MinioState) (date uuid : String)
    (m m2 : UploadMetadata) (pre post : List UploadFrame) :
    handlerUploadStream st date uuid
        (.metadata m :: (pre ++ .metadata m2 :: post))
      = handlerUploadStream st date uuid (.metadata m :: (pre ++ post)) := by
  simp [handlerUploadStream, pumpChunks_skip_metadata]

/-! ## C9: metadata followed by end-of-input -/

/-- C9: a stream carrying only the metadata frame closes the pipe with no
bytes written; on storage success the response carries the generated key
and `fileSize = 0`, with one (empty) object stored. -/
theorem uploadStream_empty_body (st : MinioState) (date uuid : String)
    (m : UploadMetadata) (h : st.putOk = true) :
    handlerUploadStream st date uuid [.metadata m]
      = ([⟨generateKey date uuid m.fileName, m.fileSize, [], m.contentType⟩],
         .ok ⟨generateKey date uuid m.fileName,
              serviceGetFileURL st (generateKey date uuid m.fileName), 0⟩) := by
  simp [handlerUploadStream, pumpChunks, serviceUploadStream, minioUpload, h]

/-- C9 witness: concrete empty-body streaming upload. -/
theorem uploadStream_empty_body_witness :
    (⟨"media", "", fun _ => none, true⟩ : MinioState).putOk = true ∧
    handlerUploadStream ⟨"media", "", fun _ => none, true⟩ "2024/01/01" "id"
        [.metadata ⟨"a.txt", 0, "text/plain"⟩]
      = ([⟨generateKey "2024/01/01" "id" "a.txt", 0, [], "text/plain"⟩],
         .ok ⟨generateKey "2024/01/01" "id" "a.txt",
              serviceGetFileURL ⟨"media", "", fun _ => none, true⟩
                (generateKey "2024/01/01" "id" "a.txt"), 0⟩) :=
  ⟨rfl, uploadStream_empty_body ⟨"media", "", fun _ => none, true⟩
    "2024/01/01" "id" ⟨"a.txt", 0, "text/plain"⟩ rfl⟩

/-! ## Helper lemmas on the download send loop -/

/-- The successive `chunkSize`-byte slices of a buffer, in order. -/
def chunksOf (content : List Nat) : List (List Nat) :=
  if h : content = [] then []
  else content.take chunkSize :: chunksOf (content.drop chunkSize)
termination_by content.length
decreasing_by
  simp only [List.length_drop]
  have hc : chunkSize = 32768 := rfl
  have : 0 < content.length := List.length_pos.mpr h
  omega

/-- The send loop emits exactly one chunk frame per slice. -/
theorem readLoop_eq_chunksOf (content : List Nat) :
    readLoop content = (chunksOf content).map .chunk := by
  induction content using chunksOf.induct with
  | case1 => simp [readLoop, chunksOf]
  | case2 c h ih =>
      rw [readLoop, chunksOf]
      simp [h, ih]

/-- The slices concatenate back to the original buffer. -/
theorem chunksOf_flatten (content : List Nat) :
    (chunksOf content).flatten = content := by
  induction content using chunksOf.induct with
  | case1 => simp [chunksOf]
  | case2 c h ih =>
      rw [chunksOf]
      simp [h, ih]

/-- There are exactly `ceil(length / chunkSize)` slices. -/
theorem chunksOf_length (content : List Nat) :
    (chunksOf content).length
      = (content.length + chunkSize - 1) / chunkSize := by
  have hc : chunkSize = 32768 := rfl
  induction content using chunksOf.induct with
  | case1 =>
      have h0 : chunksOf [] = [] := by rw [chunksOf]; simp
      simp only [h0, List.length_nil, hc]
  | case2 c h ih =>
      rw [chunksOf]
      simp only [h, dite_false, List.length_cons, ih, List.length_drop]
      have : 0 < c.length := List.length_pos.mpr h
      rw [hc] at *
      omega

/-- Every slice is non-empty and at most `chunkSize` bytes. -/
theorem chunksOf_mem (content : List Nat) :
    ∀ d ∈ chunksOf content, d.length ≤ chunkSize ∧ d ≠ [] := by
  have hc : chunkSize = 32768 := rfl
  induction content using chunksOf.induct with
  | case1 => simp [chunksOf]
  | case2 c h ih =>
      rw [chunksOf]
      simp only [h, dite_false, List.mem_cons]
      rintro d (rfl | hd)
      · constructor
        · simp [List.length_take]
        · have : 0 < c.length := List.length_pos.mpr h
          have : 0 < (c.take chunkSize).length := by
            simp only [List.length_take]
            rw [hc] at *
            omega
          exact List.length_pos.mp this
      · exact ih d hd

/-! ## C3: DownloadStream chunking -/

/-- C3: for a stored object of positive length `L`, `DownloadStream`
succeeds, emitting one metadata frame echoing the requested path followed
by exactly `ceil(L / 32768)` chunk frames; each chunk is non-empty and at
most 32768 bytes, and the chunk payloads concatenate to the stored bytes
in order, with no trailing empty frame. -/
theorem downloadStream_chunking (st : MinioState) (p : String)
    (c : List Nat) (hobj : st.objects p = some c) (hlen : 0 < c.length) :
    handlerDownloadStream st p
      = (.metadata p :: (chunksOf c).map .chunk, none) ∧
    (chunksOf c).length = (c.length + chunkSize - 1) / chunkSize ∧
    (chunksOf c).flatten = c ∧
    ∀ d ∈ chunksOf c, d.length ≤ chunkSize ∧ d ≠ [] := by
  refine ⟨?_, chunksOf_length c, chunksOf_flatten c, chunksOf_mem c⟩
  simp [handlerDownloadStream, serviceDownloadFile, minioDownload, hobj,
    readLoop_eq_chunksOf]

/-- C3 witness: a three-byte object streams as one metadata frame and one
chunk frame. -/
theorem downloadStream_chunking_witness :
    (⟨"media", "", fun _ => some [7, 8, 9], true⟩ : MinioState).objects "k"
      = some [7, 8, 9] ∧
    0 < ([7, 8, 9] : List Nat).length ∧
    handlerDownloadStream ⟨"media", "", fun _ => some [7, 8, 9], true⟩ "k"
      = (.metadata "k" :: (chunksOf [7, 8, 9]).map .chunk, none) :=
  ⟨rfl, by decide,
   (downloadStream_chunking ⟨"media", "", fun _ => some [7, 8, 9], true⟩
     "k" [7, 8, 9] rfl (by decide)).1⟩

/-! ## C5: missing object on download -/

/-- C5: when storage cannot produce a read handle for a path (object
absent or any storage error), `Download` fails with `NotFound` and
`DownloadStream` fails with `NotFound` having sent no frame. -/
theorem download_missing_notFound (st : MinioState) (p : String)
    (hobj : st.objects p = none) :
    handlerDownload st p = .err .notFound ∧
    handlerDownloadStream st p = ([], some .notFound) := by
  simp [handlerDownload, handlerDownloadStream, serviceDownloadFile,
    minioDownload, hobj]

/-- C5 witness: an empty store fails both download calls with NotFound. -/
theorem download_missing_notFound_witness :
    (⟨"media", "http://cdn", fun _ => none, true⟩ : MinioState).objects
        "nonexistent/key" = none ∧
    handlerDownload ⟨"media", "http://cdn", fun _ => none, true⟩
        "nonexistent/key" = .err .notFound ∧
    handlerDownloadStream ⟨"media", "http://cdn", fun _ => none, true⟩
        "nonexistent/key" = ([], some .notFound) :=
  ⟨rfl,
   (download_missing_notFound ⟨"media", "http://cdn", fun _ => none, true⟩
     "nonexistent/key" rfl).1,
   (download_missing_notFound ⟨"media", "http://cdn", fun _ => none, true⟩
     "nonexistent/key" rfl).2⟩

/-! ## C6: URL derivation -/

/-- C6: `GetURL(k)` is the pure derivation
`{baseURL}/{bucket}/{k}` when a base URL is configured, and the empty
string when the configured base URL is empty; it consults nothing but the
configuration, so it is total and independent of the stored objects. -/
theorem getURL_derivation (st : MinioState) (k : String) :
    (st.fileURL ≠ "" →
      (handlerGetURL st k).url
        = st.fileURL ++ "/" ++ st.bucketName ++ "/" ++ k) ∧
    (st.fileURL = "" → (handlerGetURL st k).url = "") ∧
    (∀ objects2 putOk2,
      handlerGetURL ⟨st.bucketName, st.fileURL, objects2, putOk2⟩ k
        = handlerGetURL st k) := by
  refine ⟨?_, ?_, ?_⟩
  · intro h
    simp [handlerGetURL, serviceGetFileURL, minioGetURL, h]
  · intro h
    simp [handlerGetURL, serviceGetFileURL, minioGetURL, h]
  · intro objects2 putOk2
    simp [handlerGetURL, serviceGetFileURL, minioGetURL]

/-- C6 witness: the spec's own example, plus the empty-base-URL case. -/
theorem getURL_derivation_witness :
    (handlerGetURL ⟨"media", "https://cdn.example.com", fun _ => none, true⟩
        "2024/01/01/abc.png").url
      = "https://cdn.example.com/media/2024/01/01/abc.png" ∧
    (handlerGetURL ⟨"media", "", fun _ => none, true⟩
        "2024/01/01/abc.png").url = "" := by
  constructor
  · have h := (getURL_derivation
      ⟨"media", "https://cdn.example.com", fun _ => none, true⟩
      "2024/01/01/abc.png").1 (by decide)
    exact h.trans (by decide)
  · exact (getURL_derivation ⟨"media", "", fun _ => none, true⟩
      "2024/01/01/abc.png").2.1 rfl

/-! ## C10: GetFileInfo does not consult storage -/

/-- C10: `GetFileInfo(p)` always answers `{filePath: p, url: GetURL(p)}`;
the answer is the same whatever the stored objects are (no storage access
or existence check), in particular when nothing is stored at `p`. -/
theorem getFileInfo_pure (st : MinioState) (p : String)
    (hobj : st.objects p = none) :
    handlerGetFileInfo st p = ⟨p, serviceGetFileURL st p⟩ ∧
    (∀ objects2 putOk2,
      handlerGetFileInfo ⟨st.bucketName, st.fileURL, objects2, putOk2⟩ p
        = handlerGetFileInfo st p) := by
  refine ⟨rfl, ?_⟩
  intro objects2 putOk2
  simp [handlerGetFileInfo, serviceGetFileURL, minioGetURL]

/-- C10 witness: concrete empty store, empty path allowed. -/
theorem getFileInfo_pure_witness :
    (⟨"media", "http://cdn", fun _ => none, true⟩ : MinioState).objects ""
      = none ∧
    handlerGetFileInfo ⟨"media", "http://cdn", fun _ => none, true⟩ ""
      = ⟨"", serviceGetFileURL ⟨"media", "http://cdn", fun _ => none, true⟩ ""⟩ :=
  ⟨rfl, (getFileInfo_pure ⟨"media", "http://cdn", fun _ => none, true⟩
    "" rfl).1⟩

/-! ## C4: storage-key format and extension extraction -/

/-- The backward scan of `goExtAux` either finds no extension, or returns
a dot-headed, separator-free block such that the original characters
(`rev` reversed, then `acc`) end with it. -/
theorem goExtAux_spec (rev : List Char) : ∀ acc : List Char, '/' ∉ acc →
    goExtAux acc rev = [] ∨
    ((goExtAux acc rev).head? = some '.' ∧ '/' ∉ goExtAux acc rev ∧
     ∃ pre, rev.reverse ++ acc = pre ++ goExtAux acc rev) := by
  induction rev with
  | nil => intro acc hacc; exact Or.inl rfl
  | cons c rest ih =>
      intro acc hacc
      by_cases hsl : c = '/'
      · left
        simp [goExtAux, hsl]
      · by_cases hdot : c = '.'
        · right
          subst hdot
          rw [goExtAux, if_neg hsl, if_pos rfl]
          refine ⟨rfl, ?_, rest.reverse, ?_⟩
          · intro hmem
            rcases List.mem_cons.mp hmem with h1 | h2
            · exact hsl h1.symm
            · exact hacc h2
          · simp
        · rw [goExtAux, if_neg hsl, if_neg hdot]
          have hacc2 : '/' ∉ c :: acc := by
            intro hmem
            rcases List.mem_cons.mp hmem with h1 | h2
            · exact hsl h1.symm
            · exact hacc h2
          rcases ih (c :: acc) hacc2 with h | ⟨h1, h2, pre, h3⟩
          · exact Or.inl h
          · refine Or.inr ⟨h1, h2, pre, ?_⟩
            simpa using h3

/-- A path without any dot has no extension under the backward scan. -/
theorem goExtAux_no_dot (rev : List Char) :
    ∀ acc : List Char, '.' ∉ rev → goExtAux acc rev = [] := by
  induction rev with
  | nil => intro acc _; rfl
  | cons c rest ih =>
      intro acc hdot
      rw [goExtAux]
      by_cases hsl : c = '/'
      · rw [if_pos hsl]
      · have hd2 : ¬ (c = '.') := by
          intro h
          subst h
          exact hdot (List.mem_cons_self _ _)
        rw [if_neg hsl, if_neg hd2]
        exact ih _ (fun h => hdot (List.mem_cons_of_mem c h))

/-- C4 counterexample: for the filename `"a.b/c"`, which contains a `.`,
the claimed extension rule (substring from the last `.` of the whole
filename) gives `".b/c"`, but the generated storage key has no extension
at all: `filepath.Ext` stops at the path separator. -/
theorem uploadKey_claimedExt_cex :
    claimExt "a.b/c" = ".b/c" ∧
    ('.' ∈ ("a.b/c" : String).data) ∧
    generateKey "2024/01/01" "id" "a.b/c"
      ≠ "2024/01/01" ++ "/" ++ "id" ++ claimExt "a.b/c" ∧
    generateKey "2024/01/01" "id" "a.b/c" = "2024/01/01" ++ "/" ++ "id" := by
  refine ⟨by decide, by decide, by decide, by decide⟩

/-- C4 (amended): an upload stores under the key
`<date>/<uuid><ext>` where `<ext>` is `filepath.Ext` of the original
filename: either empty, or a `.`-headed suffix of the filename that
contains no `/` (the dot must come after the last separator); a filename
without any `.` always yields an extension-free key. -/
theorem uploadKey_format (st : MinioState) (date uuid fileName : String)
    (fileSize : Int) (content : List Nat) (contentType : String) :
    (minioUpload st date uuid fileName fileSize content contentType).1.key
      = date ++ "/" ++ uuid ++ goExt fileName ∧
    (goExt fileName = "" ∨
      ((goExt fileName).data.head? = some '.' ∧
       '/' ∉ (goExt fileName).data ∧
       ∃ pre, fileName.data = pre ++ (goExt fileName).data)) ∧
    ('.' ∉ fileName.data → goExt fileName = "") := by
  refine ⟨rfl, ?_, ?_⟩
  · have h := goExtAux_spec fileName.data.reverse [] (by simp)
    rcases h with h | ⟨h1, h2, pre, h3⟩
    · left
      show (⟨goExtAux [] fileName.data.reverse⟩ : String) = ""
      rw [h]
    · right
      refine ⟨h1, h2, pre, ?_⟩
      have : fileName.data.reverse.reverse ++ ([] : List Char)
          = fileName.data := by simp
      rw [← this]
      exact h3
  · intro hdot
    have h := goExtAux_no_dot fileName.data.reverse []
      (fun hm => hdot (List.mem_reverse.mp hm))
    show (⟨goExtAux [] fileName.data.reverse⟩ : String) = ""
    rw [h]

/-- C4 witness: `"noext"` has no dot, so its key is bare
`<date>/<uuid>`; and `"report.pdf"` keeps `".pdf"`. -/
theorem uploadKey_format_witness :
    ('.' ∉ ("noext" : String).data) ∧
    goExt "noext" = "" ∧
    goExt "report.pdf" = ".pdf" ∧
    generateKey "2024/01/01" "id" "report.pdf"
      = "2024/01/01" ++ "/" ++ "id" ++ ".pdf" :=
  ⟨by decide,
   (uploadKey_format ⟨"media", "", fun _ => none, true⟩ "2024/01/01" "id"
     "noext" 0 [] "").2.2 (by decide),
   by decide, by decide⟩

/-! ## C7: key uniqueness under fresh identifiers -/

/-- Two generated keys for the same filename, built over equal-length
dates, coincide only if the identifiers coincide. -/
theorem generateKey_inj (d1 d2 u1 u2 f : String)
    (hd : d1.length = d2.length)
    (h : generateKey d1 u1 f = generateKey d2 u2 f) : u1 = u2 := by
  have hdata := congrArg String.data h
  simp only [generateKey, String.data_append, List.append_assoc] at hdata
  have hdl : d1.data.length = d2.data.length := hd
  have h2 := (List.append_inj hdata hdl).2
  have h3 : u1.data ++ (goExt f).data = u2.data ++ (goExt f).data := by
    simpa using h2
  exact String.ext (List.append_cancel_right h3)

/-- A member of a `zipWith` image comes from members of the two lists. -/
theorem mem_zipWith_elim {α β γ : Type} {g : α → β → γ} :
    ∀ {as : List α} {bs : List β} {c : γ}, c ∈ List.zipWith g as bs →
      ∃ a ∈ as, ∃ b ∈ bs, c = g a b := by
  intro as
  induction as with
  | nil => intro bs c hc; simp at hc
  | cons a as ih =>
      intro bs c hc
      cases bs with
      | nil => simp at hc
      | cons b bs =>
          rw [List.zipWith_cons_cons] at hc
          rcases List.mem_cons.mp hc with h1 | h2
          · exact ⟨a, List.mem_cons_self _ _, b, List.mem_cons_self _ _, h1⟩
          · obtain ⟨a2, ha2, b2, hb2, rfl⟩ := ih h2
            exact ⟨a2, List.mem_cons_of_mem _ ha2, b2,
              List.mem_cons_of_mem _ hb2, rfl⟩

/-- C7: N successive uploads of the same filename — N key generations
over `YYYY/MM/DD` dates (always 10 characters) and fresh identifiers —
produce pairwise distinct storage keys. -/
theorem uploadKeys_pairwise_distinct (f : String)
    (dates uuids : List String)
    (hdate : ∀ d ∈ dates, d.length = 10)
    (hfresh : uuids.Pairwise (· ≠ ·)) :
    (List.zipWith (fun d u => generateKey d u f) dates uuids).Pairwise
      (· ≠ ·) := by
  induction dates generalizing uuids with
  | nil => simp
  | cons d ds ih =>
      cases uuids with
      | nil => simp
      | cons u us =>
          rw [List.zipWith_cons_cons]
          rcases List.pairwise_cons.mp hfresh with ⟨hu, hus⟩
          refine List.Pairwise.cons ?_
            (ih us (fun x hx => hdate x (List.mem_cons_of_mem _ hx)) hus)
          intro k hk heq
          obtain ⟨d2, hd2, u2, hu2, rfl⟩ := mem_zipWith_elim hk
          have hlen : d.length = d2.length := by
            rw [hdate d (List.mem_cons_self _ _),
              hdate d2 (List.mem_cons_of_mem _ hd2)]
          exact hu u2 hu2 (generateKey_inj d d2 u u2 f hlen heq)

/-- C7 witness: two generations on the same day with distinct canonical
identifiers yield distinct keys. -/
theorem uploadKeys_pairwise_distinct_witness :
    (∀ d ∈ ["2024/01/01", "2024/01/01"], d.length = 10) ∧
    (["123e4567-e89b-12d3-a456-426614174000",
      "123e4567-e89b-12d3-a456-426614174001"] : List String).Pairwise
      (· ≠ ·) ∧
    (List.zipWith (fun d u => generateKey d u "a.txt")
        ["2024/01/01", "2024/01/01"]
        ["123e4567-e89b-12d3-a456-426614174000",
         "123e4567-e89b-12d3-a456-426614174001"]).Pairwise (· ≠ ·) :=
  ⟨by decide, by decide,
   uploadKeys_pairwise_distinct "a.txt" ["2024/01/01", "2024/01/01"]
     ["123e4567-e89b-12d3-a456-426614174000",
      "123e4567-e89b-12d3-a456-426614174001"] (by decide) (by decide)⟩
